import Mathlib

set_option maxHeartbeats 1000000

namespace Snowman

/-!
Shallow embedding of the snowman static-site builder (src/cmd/build.go)
together with the boundary behaviour of the Go standard library and client
libraries it calls (strings.Replace, net/url.ParseRequestURI, Go map
zero-value lookup, knakk/sparql result bindings).  Strings are modelled at
the code-point level; all inputs at issue are ASCII, where this coincides
with the byte level Go operates on.
-/

/-- startsWith s pat is Go strings.HasPrefix s pat. -/
def startsWith : List Char → List Char → Bool
  | _, [] => true
  | [], _ :: _ => false
  | c :: cs, p :: ps => c == p && startsWith cs ps

/-- endsWith s pat is Go strings.HasSuffix s pat. -/
def endsWith (s pat : List Char) : Bool := startsWith s.reverse pat.reverse

/-- listReplaceFirst s pat rep is Go strings.Replace s pat rep 1 for a
non-empty pat; Go treats an empty pat specially (insertion), but every
pattern this program passes is non-empty. -/
def listReplaceFirst : List Char → List Char → List Char → List Char
  | [], _, _ => []
  | c :: cs, pat, rep =>
    if startsWith (c :: cs) pat then rep ++ (c :: cs).drop pat.length
    else c :: listReplaceFirst cs pat rep

/-- goReplaceFirst lifts strings.Replace with count 1 to String. -/
def goReplaceFirst (s pat rep : String) : String :=
  ⟨listReplaceFirst s.data pat.data rep.data⟩

/-- listIndexOf c s is Go strings.Index s (single-character separator). -/
def listIndexOf (c : Char) (s : List Char) : Option Nat :=
  match s with
  | [] => none
  | d :: ds => if d == c then some 0 else (listIndexOf c ds).map (· + 1)

/-- lastIndexOf c s is Go strings.LastIndex s (single-character separator),
computed through the reversed list. -/
def lastIndexOf (c : Char) (s : List Char) : Option Nat :=
  match listIndexOf c s.reverse with
  | some i => some (s.length - 1 - i)
  | none => none

/-! Character classes used by the net/url model, written over code points
exactly as Go compares bytes. -/

def isAlphaChar (c : Char) : Bool :=
  (decide (97 ≤ c.toNat) && decide (c.toNat ≤ 122)) ||
  (decide (65 ≤ c.toNat) && decide (c.toNat ≤ 90))

def isDigitChar (c : Char) : Bool :=
  decide (48 ≤ c.toNat) && decide (c.toNat ≤ 57)

def isSchemeExtraChar (c : Char) : Bool :=
  isDigitChar c || c == '+' || c == '-' || c == '.'

/-- containsCTLByte is the control-character scan at the top of net/url
parse. -/
def containsCTLByte (s : List Char) : Bool :=
  s.any (fun c => decide (c.toNat < 32) || decide (c.toNat = 127))

inductive SchemeScan
  | noScheme
  | missing
  | found (i : Nat)
deriving DecidableEq, Repr

/-- schemeScanAux models the index loop of net/url getScheme. -/
def schemeScanAux : List Char → Nat → SchemeScan
  | [], _ => SchemeScan.noScheme
  | c :: cs, i =>
    if isAlphaChar c then schemeScanAux cs (i + 1)
    else if isSchemeExtraChar c then
      (if i = 0 then SchemeScan.noScheme else schemeScanAux cs (i + 1))
    else if c == ':' then
      (if i = 0 then SchemeScan.missing else SchemeScan.found i)
    else SchemeScan.noScheme

/-- getScheme is net/url getScheme. -/
def getScheme (raw : List Char) : Except String (List Char × List Char) :=
  match schemeScanAux raw 0 with
  | SchemeScan.missing => Except.error "missing protocol scheme"
  | SchemeScan.noScheme => Except.ok ([], raw)
  | SchemeScan.found i => Except.ok (raw.take i, raw.drop (i + 1))

inductive UMode
  | host
  | path
  | userPassword
deriving DecidableEq, Repr

/-- hostAllowedPunct is the punctuation net/url shouldEscape admits in a
host (sub-delims plus colon, brackets, angle brackets and double quote). -/
def hostAllowedPunct : List Char :=
  ['!', '$', '&', Char.ofNat 39, '(', ')', '*', '+', ',', ';', '=',
   ':', '[', ']', '<', '>', Char.ofNat 34]

/-- shouldEscapeHost is net/url shouldEscape with mode encodeHost. -/
def shouldEscapeHost (c : Char) : Bool :=
  if isAlphaChar c || isDigitChar c then false
  else if hostAllowedPunct.contains c then false
  else if c == '-' || c == '_' || c == '.' || c == '~' then false
  else true

def isHexChar (c : Char) : Bool :=
  isDigitChar c ||
  (decide (97 ≤ c.toNat) && decide (c.toNat ≤ 102)) ||
  (decide (65 ≤ c.toNat) && decide (c.toNat ≤ 70))

/-- unhex is net/url unhex, defined on valid hex digits. -/
def unhex (c : Char) : Nat :=
  if isDigitChar c then c.toNat - 48
  else if decide (97 ≤ c.toNat) then c.toNat - 87
  else c.toNat - 55

/-- unescape is net/url unescape restricted to the modes reachable from
ParseRequestURI in this program (host, path, user-password); the IPv6 zone
mode is never reached here and is not modelled. -/
def unescape : List Char → UMode → Except String (List Char)
  | [], _ => Except.ok []
  | c :: rest, mode =>
    if c == '%' then
      match rest with
      | h1 :: h2 :: rest2 =>
        if isHexChar h1 && isHexChar h2 then
          if mode == UMode.host && decide (unhex h1 < 8) && !(h1 == '2' && h2 == '5') then
            Except.error "invalid host"
          else
            match unescape rest2 mode with
            | Except.ok t => Except.ok (Char.ofNat (16 * unhex h1 + unhex h2) :: t)
            | Except.error e => Except.error e
        else Except.error "invalid URL escape"
      | _ => Except.error "invalid URL escape"
    else if mode == UMode.host && decide (c.toNat < 128) && shouldEscapeHost c then
      Except.error "invalid character in host name"
    else
      match unescape rest mode with
      | Except.ok t => Except.ok (c :: t)
      | Except.error e => Except.error e

/-- validOptionalPort is net/url validOptionalPort. -/
def validOptionalPort (port : List Char) : Bool :=
  match port with
  | [] => true
  | c :: rest => c == ':' && rest.all (fun d => isDigitChar d)

/-- parseHost is net/url parseHost; inside a bracketed IPv6 host Go treats
a percent-25 zone separator specially, a branch no theorem below reaches
and which is collapsed to a plain unescape here. -/
def parseHost (host : List Char) : Except String (List Char) :=
  if startsWith host ['['] then
    match lastIndexOf (']') host with
    | none => Except.error "missing right bracket in host"
    | some i =>
      if !validOptionalPort (host.drop (i + 1)) then Except.error "invalid port after host"
      else unescape host UMode.host
  else
    match lastIndexOf ':' host with
    | some i =>
      if !validOptionalPort (host.drop i) then Except.error "invalid port after host"
      else unescape host UMode.host
    | none => unescape host UMode.host

def validUserinfoChar (c : Char) : Bool :=
  isAlphaChar c || isDigitChar c ||
  ['-', '.', '_', ':', '~', '!', '$', '&', Char.ofNat 39,
   '(', ')', '*', '+', ',', ';', '=', '%', '@'].contains c

/-- parseAuthority is net/url parseAuthority; the decoded Userinfo value is
discarded because only validity flows back into the program. -/
def parseAuthority (authority : List Char) : Except String (List Char) :=
  match lastIndexOf '@' authority with
  | none => parseHost authority
  | some i =>
    match parseHost (authority.drop (i + 1)) with
    | Except.error e => Except.error e
    | Except.ok host =>
      if !(authority.take i).all validUserinfoChar then
        Except.error "net/url: invalid userinfo"
      else
        match listIndexOf ':' (authority.take i) with
        | none =>
          match unescape (authority.take i) UMode.userPassword with
          | Except.error e => Except.error e
          | Except.ok _ => Except.ok host
        | some j =>
          match unescape ((authority.take i).take j) UMode.userPassword with
          | Except.error e => Except.error e
          | Except.ok _ =>
            match unescape ((authority.take i).drop (j + 1)) UMode.userPassword with
            | Except.error e => Except.error e
            | Except.ok _ => Except.ok host

structure GoURL where
  Scheme : List Char := []
  Opaque : List Char := []
  Host : List Char := []
  Path : List Char := []
  RawQuery : List Char := []
  ForceQuery : Bool := false
  OmitHost : Bool := false
deriving DecidableEq, Repr

/-- goToLower is strings.ToLower on the ASCII range, the only range a
scheme validated by getScheme can contain. -/
def goToLower (c : Char) : Char :=
  if decide (65 ≤ c.toNat) && decide (c.toNat ≤ 90) then Char.ofNat (c.toNat + 32) else c

/-- goTrimSuffixQ s is strings.TrimSuffix s with a question-mark suffix. -/
def goTrimSuffixQ (s : List Char) : List Char :=
  if endsWith s ['?'] then s.take (s.length - 1) else s

/-- urlParse is net/url parse. -/
def urlParse (rawURL : List Char) (viaRequest : Bool) : Except String GoURL :=
  if containsCTLByte rawURL then Except.error "net/url: invalid control character in URL"
  else if rawURL.isEmpty && viaRequest then Except.error "empty url"
  else if rawURL = ['*'] then Except.ok { Path := ['*'] }
  else
    match getScheme rawURL with
    | Except.error e => Except.error e
    | Except.ok (scheme0, rest0) =>
      let scheme := scheme0.map goToLower
      let qsplit : List Char × List Char × Bool :=
        if endsWith rest0 ['?'] && !((goTrimSuffixQ rest0).contains '?') then
          (rest0.take (rest0.length - 1), [], true)
        else
          match listIndexOf '?' rest0 with
          | some i => (rest0.take i, rest0.drop (i + 1), false)
          | none => (rest0, [], false)
      let rest := qsplit.1
      let rawQuery := qsplit.2.1
      let forceQuery := qsplit.2.2
      if !startsWith rest ['/'] then
        if !scheme.isEmpty then
          Except.ok { Scheme := scheme, Opaque := rest, RawQuery := rawQuery,
                      ForceQuery := forceQuery }
        else if viaRequest then Except.error "invalid URI for request"
        else if (rest.takeWhile (fun c => !(c == '/'))).contains ':' then
          Except.error "first path segment in URL cannot contain colon"
        else
          match unescape rest UMode.path with
          | Except.error e => Except.error e
          | Except.ok p => Except.ok { Path := p, RawQuery := rawQuery, ForceQuery := forceQuery }
      else
        if (!scheme.isEmpty || (!viaRequest && !startsWith rest ['/', '/', '/'])) &&
            startsWith rest ['/', '/'] then
          let authority0 := rest.drop 2
          let asplit : List Char × List Char :=
            match listIndexOf '/' authority0 with
            | some i => (authority0.take i, authority0.drop i)
            | none => (authority0, [])
          match parseAuthority asplit.1 with
          | Except.error e => Except.error e
          | Except.ok host =>
            match unescape asplit.2 UMode.path with
            | Except.error e => Except.error e
            | Except.ok p =>
              Except.ok { Scheme := scheme, Host := host, Path := p,
                          RawQuery := rawQuery, ForceQuery := forceQuery }
        else
          match unescape rest UMode.path with
          | Except.error e => Except.error e
          | Except.ok p =>
            Except.ok { Scheme := scheme, Path := p, RawQuery := rawQuery,
                        ForceQuery := forceQuery,
                        OmitHost := !scheme.isEmpty && startsWith rest ['/'] }

/-- ParseRequestURI is net/url.ParseRequestURI; the wrapping url.Error only
carries the inner message, which is all the caller inspects, so the inner
error is returned directly. -/
def ParseRequestURI (rawURL : List Char) : Except String GoURL :=
  urlParse rawURL true

/-- siteConfig, src/cmd/build.go lines 19 to 21. -/
structure siteConfig where
  Endpoint : String
deriving DecidableEq, Repr

/-- IsValid, src/cmd/build.go lines 27 to 33: the endpoint is run through
url.ParseRequestURI and any parse error is returned. -/
def siteConfig.IsValid (c : siteConfig) : Except String Unit :=
  match ParseRequestURI c.Endpoint.data with
  | Except.error e => Except.error e
  | Except.ok _ => Except.ok ()

/-- binding models one SPARQL result cell, the binding struct of the
knakk/sparql client (Lang and DataType omitted, never read by this
program); its Go zero value, with empty strings, is what a map lookup of a
missing column yields. -/
structure binding where
  kind : String := ""
  Value : String := ""
deriving DecidableEq, Repr

/-- Row is one result row of res.Results.Bindings, a Go map from column
name to binding, modelled as an association list. -/
abbrev Row := List (String × binding)

/-- Row.get models Go map indexing, which yields the zero value of the
element type when the key is absent. -/
def Row.get (r : Row) (k : String) : binding :=
  match List.find? (fun p => p.1 == k) r with
  | some p => p.2
  | none => {}

/-- Modelled from the spec: the views package (internal/views) is not under
src/; section 3 of the spec gives a ViewDescriptor an output path pattern,
query text and optional multipage field name.  Field names follow the call
sites in src/cmd/build.go (view.ViewConfig.Output, view.Sparql,
view.MultipageVariableHook); the shared include set never influences
planning and is omitted. -/
structure View where
  Output : String
  Sparql : String
  MultipageVariableHook : Option String
deriving DecidableEq, Repr

/-- siteDir, src/cmd/build.go line 113. -/
def siteDir : String := "site/"

/-- multipagePlaceholder hook is the literal token built at
src/cmd/build.go line 150: two opening braces, the hook name, two closing
braces. -/
def multipagePlaceholder (hook : String) : String :=
  "\x7b\x7b" ++ hook ++ "\x7d\x7d"

/-- multipageOutputPath is the outputPath expression of src/cmd/build.go
line 150: siteDir plus strings.Replace of the first occurrence of the
placeholder by the raw row value. -/
def multipageOutputPath (v : View) (hook : String) (row : Row) : String :=
  siteDir ++ goReplaceFirst v.Output (multipagePlaceholder hook) (Row.get row hook).Value

/-- Context is what RenderPage receives: one row in multipage mode, the
full result set in single-page mode. -/
inductive Context
  | single (row : Row)
  | all (rows : List Row)
deriving DecidableEq, Repr

/-- RenderJob pairs a computed output path with its template context,
section 3 of the spec. -/
structure RenderJob where
  outputPath : String
  context : Context
deriving DecidableEq, Repr

/-- planView is the page-planning content of the per-view loop,
src/cmd/build.go lines 148 to 159: the ordered sequence of RenderPage
calls the loop issues for one view and its query results. -/
def planView (v : View) (results : List Row) : List RenderJob :=
  match v.MultipageVariableHook with
  | some hook => results.map (fun row => ⟨multipageOutputPath v hook row, Context.single row⟩)
  | none => [⟨siteDir ++ v.Output, Context.all results⟩]

/-- Effect records one observable side effect of the build in order. -/
inductive Effect
  | mkdir (path : String)
  | copyFile (path : String) (contents : List Nat)
  | query (sparqlText : String)
  | render (path : String) (ctx : Context)
deriving DecidableEq, Repr

/-- BuildError mirrors the utils.ErrorExit sites of src/cmd/build.go; each
one aborts RunE with a non-zero process exit. -/
inductive BuildError
  | configMissing
  | configParse
  | configInvalid
  | siteDirExists
  | discoverIncludesFailed
  | discoverViewsFailed
  | queryFailed
  | renderFailed (path : String)
deriving DecidableEq, Repr

/-- CopyStatic, src/cmd/build.go lines 52 to 82, as the ordered copy
effects performed on a walkable static tree; files are listed as a pair of
path relative to the static root and contents, in walk order, and I/O
failures of the copy itself are outside the model.  The new path is
strings.Replace of the first occurrence of the static prefix by the site
prefix, and io.Copy transfers the bytes unchanged. -/
def CopyStatic (files : List (String × List Nat)) : List Effect :=
  files.map (fun f => Effect.copyFile (goReplaceFirst ("static/" ++ f.1) "static/" "site/") f.2)

/-- World is the part of the file system the build reads before the view
loop: the config file if present, whether the site directory already
exists, and the static tree if present. -/
structure World where
  snowmanYaml : Option (List Nat)
  siteExists : Bool
  staticFiles : Option (List (String × List Nat))

/-- Oracles packages the boundary collaborators of the pipeline: the YAML
parser, the two directory walks, the SPARQL client (repo creation and
query collapsed into one call, both abort the build on error), and the
template renderer. -/
structure Oracles where
  parseYaml : List Nat → Except String siteConfig
  discoverIncludes : Except String (List String)
  discoverViews : List String → Except String (List View)
  queryRows : View → Except String (List Row)
  renderOk : String → Context → Except String Unit

/-- runJobs renders the planned pages of one view in order, aborting at
the first failure, src/cmd/build.go lines 148 to 159. -/
def runJobs (rend : String → Context → Except String Unit) :
    List RenderJob → List Effect × Except BuildError Unit
  | [] => ([], Except.ok ())
  | j :: js =>
    match rend j.outputPath j.context with
    | Except.error _ =>
      ([Effect.render j.outputPath j.context], Except.error (BuildError.renderFailed j.outputPath))
    | Except.ok _ =>
      let r := runJobs rend js
      (Effect.render j.outputPath j.context :: r.1, r.2)

/-- runView is one iteration of the view loop, src/cmd/build.go lines 137
to 160: connect and query, then render every planned page. -/
def runView (q : View → Except String (List Row))
    (rend : String → Context → Except String Unit) (v : View) :
    List Effect × Except BuildError Unit :=
  match q v with
  | Except.error _ => ([Effect.query v.Sparql], Except.error BuildError.queryFailed)
  | Except.ok rows =>
    let jr := runJobs rend (planView v rows)
    (Effect.query v.Sparql :: jr.1, jr.2)

/-- runViews is the view loop, src/cmd/build.go lines 137 to 161: views in
discovery order, stopping at the first error. -/
def runViews (q : View → Except String (List Row))
    (rend : String → Context → Except String Unit) :
    List View → List Effect × Except BuildError Unit
  | [] => ([], Except.ok ())
  | v :: vs =>
    match runView q rend v with
    | (t, Except.error e) => (t, Except.error e)
    | (t, Except.ok _) =>
      let rest := runViews q rend vs
      (t ++ rest.1, rest.2)

/-- staticStage is the static-directory step of buildCmd, src/cmd/build.go
lines 119 to 125: a missing static directory is a printed skip with no
effects, a present one is copied. -/
def staticStage (w : World) : List Effect :=
  match w.staticFiles with
  | none => []
  | some files => CopyStatic files

/-- buildCmd is the RunE body of src/cmd/build.go lines 89 to 164 over an
abstract world and the boundary oracles; os.Getwd is assumed to succeed
and a present config file is assumed readable (a stat failure and a read
failure abort identically just before and after one another). -/
def buildCmd (w : World) (o : Oracles) : List Effect × Except BuildError Unit :=
  match w.snowmanYaml with
  | none => ([], Except.error BuildError.configMissing)
  | some bytes =>
    match o.parseYaml bytes with
    | Except.error _ => ([], Except.error BuildError.configParse)
    | Except.ok config =>
      match config.IsValid with
      | Except.error _ => ([], Except.error BuildError.configInvalid)
      | Except.ok _ =>
        if w.siteExists then ([], Except.error BuildError.siteDirExists)
        else
          match o.discoverIncludes with
          | Except.error _ =>
            (Effect.mkdir "site" :: staticStage w, Except.error BuildError.discoverIncludesFailed)
          | Except.ok layouts =>
            match o.discoverViews layouts with
            | Except.error _ =>
              (Effect.mkdir "site" :: staticStage w, Except.error BuildError.discoverViewsFailed)
            | Except.ok vs =>
              let r := runViews o.queryRows o.renderOk vs
              (Effect.mkdir "site" :: staticStage w ++ r.1, r.2)

/-- Modelled from the spec: a syntactically well-formed absolute URL in
the sense of section 8, restricted to a scheme of letters, a host of
letters, digits, hyphens and dots, and an optional absolute path of
unreserved characters and slashes; rendered as scheme, colon, two slashes,
host, path. -/
structure SimpleAbsUrl where
  scheme : List Char
  host : List Char
  path : List Char

def isSimpleHostChar (c : Char) : Bool :=
  isAlphaChar c || isDigitChar c || c == '-' || c == '.'

def isSimplePathChar (c : Char) : Bool :=
  isSimpleHostChar c || c == '_' || c == '~' || c == '/'

def SimpleAbsUrl.WellFormed (u : SimpleAbsUrl) : Prop :=
  u.scheme ≠ [] ∧ (∀ c ∈ u.scheme, isAlphaChar c = true) ∧
  u.host ≠ [] ∧ (∀ c ∈ u.host, isSimpleHostChar c = true) ∧
  (∀ c ∈ u.path, isSimplePathChar c = true) ∧
  (u.path = [] ∨ u.path.take 1 = ['/'])

instance (u : SimpleAbsUrl) : Decidable u.WellFormed := by
  unfold SimpleAbsUrl.WellFormed
  infer_instance

def SimpleAbsUrl.render (u : SimpleAbsUrl) : List Char :=
  u.scheme ++ ':' :: '/' :: '/' :: (u.host ++ u.path)

/-! Concrete sample data shared by the claim theorems below: the section 8
examples of the spec. -/

/-- vPosts is the multipage example view of spec section 8. -/
def vPosts : View :=
  ⟨"posts/\x7b\x7bslug\x7d\x7d.html", "SELECT ?slug WHERE", some "slug"⟩

def rowX : Row := [("slug", ⟨"literal", "x"⟩)]

def rowY : Row := [("slug", ⟨"literal", "y"⟩)]

/-- rowXdup is distinct from rowX but carries the same slug value. -/
def rowXdup : Row := [("slug", ⟨"literal", "x"⟩), ("title", ⟨"literal", "t"⟩)]

/-- rowNoSlug lacks the multipage column entirely. -/
def rowNoSlug : Row := [("title", ⟨"literal", "t"⟩)]

/-- vIndex is the single-page example view of spec section 8. -/
def vIndex : View := ⟨"index.html", "SELECT ?a WHERE", none⟩

def rowA1 : Row := [("a", ⟨"literal", "1"⟩)]

def rowA2 : Row := [("a", ⟨"literal", "2"⟩)]

/-- sampleUrl is the accepted example URL of spec section 8, as a
structured well-formed absolute URL. -/
def sampleUrl : SimpleAbsUrl := ⟨"https".data, "example.org".data, "/sparql".data⟩

/-- sampleOracles gives boundary collaborators that always succeed; used
by the witnesses below. -/
def sampleOracles : Oracles where
  parseYaml := fun _ => Except.ok ⟨"https://example.org/sparql"⟩
  discoverIncludes := Except.ok []
  discoverViews := fun _ => Except.ok []
  queryRows := fun _ => Except.ok [rowX]
  renderOk := fun _ _ => Except.ok ()

/-! Helper lemmas on the string utilities. -/

theorem startsWith_append_self (pat t : List Char) : startsWith (pat ++ t) pat = true := by
  induction pat with
  | nil => simp [startsWith]
  | cons p ps ih => simp [startsWith, ih]

theorem listReplaceFirst_append_left (pat t rep : List Char) (h : pat ≠ []) :
    listReplaceFirst (pat ++ t) pat rep = rep ++ t := by
  cases pat with
  | nil => exact absurd rfl h
  | cons p ps =>
    have h1 : startsWith ((p :: ps) ++ t) (p :: ps) = true := startsWith_append_self _ _
    have h2 : ((p :: ps) ++ t).drop (p :: ps).length = t := List.drop_left _ _
    simp only [List.cons_append] at h1 h2 ⊢
    rw [listReplaceFirst, if_pos h1, h2]

theorem goReplaceFirst_static (rel : String) :
    goReplaceFirst ("static/" ++ rel) "static/" "site/" = "site/" ++ rel := by
  have hne : ("static/" : String).data ≠ [] := by decide
  show String.mk (listReplaceFirst ("static/".data ++ rel.data) "static/".data "site/".data) =
    String.mk ("site/".data ++ rel.data)
  rw [listReplaceFirst_append_left _ _ _ hne]

/-! Claim theorems C1 to C4. -/

/-- C3 counterexample: at the multipage example of spec section 8, the
planned output path is not the substituted output pattern; the code
prepends the site directory to it. -/
theorem c3_counterexample :
    ¬ ((planView vPosts [rowX]).map RenderJob.outputPath =
       [goReplaceFirst vPosts.Output (multipagePlaceholder "slug") (Row.get rowX "slug").Value]) := by
  decide

/-- C3 amended: in multipage mode exactly one RenderJob is produced per
row; its output path is the site directory followed by the output pattern
with the first occurrence of the placeholder token replaced verbatim by
the value of the multipage column of that row, and its context is that
single row. -/
theorem c3_multipage_plan (v : View) (hook : String) (rows : List Row)
    (h : v.MultipageVariableHook = some hook) :
    planView v rows =
      rows.map (fun row =>
        ⟨"site/" ++ goReplaceFirst v.Output (multipagePlaceholder hook) (Row.get row hook).Value,
         Context.single row⟩) ∧
    (planView v rows).length = rows.length := by
  constructor
  · simp [planView, h, multipageOutputPath, siteDir]
  · simp [planView, h]

theorem c3_multipage_plan_witness :
    planView vPosts [rowX, rowY] =
      [rowX, rowY].map (fun row =>
        ⟨"site/" ++ goReplaceFirst vPosts.Output (multipagePlaceholder "slug") (Row.get row "slug").Value,
         Context.single row⟩) :=
  (c3_multipage_plan vPosts "slug" [rowX, rowY] rfl).1

/-- C1 counterexample: two distinct rows that substitute to the same
output path do not make planning fail; both pages are planned, the second
one aimed at the very path of the first. -/
theorem c1_counterexample :
    rowX ≠ rowXdup ∧
    multipageOutputPath vPosts "slug" rowX = multipageOutputPath vPosts "slug" rowXdup ∧
    planView vPosts [rowX, rowXdup] =
      [⟨"site/posts/x.html", Context.single rowX⟩,
       ⟨"site/posts/x.html", Context.single rowXdup⟩] := by
  decide

/-- C1 amended: when two rows of a multipage view substitute to the same
output path, planning does not fail; one job per row is still produced and
the two jobs carry the identical output path, so the later render targets
the path of the earlier one. -/
theorem c1_collision_overwrite (v : View) (hook : String) (rows : List Row) (r1 r2 : Row)
    (h : v.MultipageVariableHook = some hook)
    (h1 : r1 ∈ rows) (h2 : r2 ∈ rows)
    (hcol : multipageOutputPath v hook r1 = multipageOutputPath v hook r2) :
    (planView v rows).length = rows.length ∧
    RenderJob.mk (multipageOutputPath v hook r1) (Context.single r1) ∈ planView v rows ∧
    RenderJob.mk (multipageOutputPath v hook r1) (Context.single r2) ∈ planView v rows := by
  refine ⟨by simp [planView, h], ?_, ?_⟩
  · simp only [planView, h, List.mem_map]
    exact ⟨r1, h1, rfl⟩
  · simp only [planView, h, List.mem_map]
    exact ⟨r2, h2, by rw [hcol]⟩

theorem c1_collision_overwrite_witness :
    (planView vPosts [rowX, rowXdup]).length = [rowX, rowXdup].length ∧
    RenderJob.mk (multipageOutputPath vPosts "slug" rowX) (Context.single rowX) ∈
      planView vPosts [rowX, rowXdup] ∧
    RenderJob.mk (multipageOutputPath vPosts "slug" rowX) (Context.single rowXdup) ∈
      planView vPosts [rowX, rowXdup] :=
  c1_collision_overwrite vPosts "slug" [rowX, rowXdup] rowX rowXdup rfl
    (by decide) (by decide) (by decide)

/-- C2: on a multipage view where the second row lacks the multipage
column, the build does not fail; the Go map lookup yields the zero
binding, its empty Value replaces the placeholder, and a page is still
planned for every row, the degenerate one included. -/
theorem c2_missing_column_renders :
    Row.get rowNoSlug "slug" = { kind := "", Value := "" } ∧
    planView vPosts [rowX, rowNoSlug] =
      [⟨"site/posts/x.html", Context.single rowX⟩,
       ⟨"site/posts/.html", Context.single rowNoSlug⟩] := by
  decide

/-- C4 counterexample: at the single-page two-row example of spec section
8, the planned output path is not the output pattern; the code prepends
the site directory to it. -/
theorem c4_counterexample :
    ¬ ((planView vIndex [rowA1, rowA2]).map RenderJob.outputPath = [vIndex.Output]) := by
  decide

/-- C4 amended: with the multipage hook unset, exactly one RenderJob is
produced; its output path is the site directory followed by the output
pattern with no substitution performed, and its context is the full row
sequence. -/
theorem c4_single_page_plan (v : View) (rows : List Row)
    (h : v.MultipageVariableHook = none) :
    planView v rows = [⟨"site/" ++ v.Output, Context.all rows⟩] := by
  simp [planView, h, siteDir]

theorem c4_single_page_plan_witness :
    planView vIndex [rowA1, rowA2] = [⟨"site/" ++ vIndex.Output, Context.all [rowA1, rowA2]⟩] :=
  c4_single_page_plan vIndex [rowA1, rowA2] rfl

/-! Claim theorems C6 to C10 about the whole build. -/

/-- C6: with the config file absent, the build stops with the config
error and an empty effect trace, so no directory of any kind has been
created yet. -/
theorem c6_missing_config (w : World) (o : Oracles) (h : w.snowmanYaml = none) :
    buildCmd w o = ([], Except.error BuildError.configMissing) := by
  simp [buildCmd, h]

theorem c6_missing_config_witness :
    buildCmd ⟨none, false, none⟩ sampleOracles = ([], Except.error BuildError.configMissing) :=
  c6_missing_config ⟨none, false, none⟩ sampleOracles rfl

/-- C7: once the config is read, parsed and validated, a pre-existing site
directory makes the build fail with no effect performed, and otherwise the
first effect of the build is the fresh creation of the site directory. -/
theorem c7_site_dir_fresh (w : World) (o : Oracles) (bytes : List Nat) (cfg : siteConfig)
    (hy : w.snowmanYaml = some bytes) (hp : o.parseYaml bytes = Except.ok cfg)
    (hv : cfg.IsValid = Except.ok ()) :
    (w.siteExists = true → buildCmd w o = ([], Except.error BuildError.siteDirExists)) ∧
    (w.siteExists = false →
      ∃ t r, buildCmd w o = (Effect.mkdir "site" :: t, r)) := by
  constructor
  · intro hex
    simp [buildCmd, hy, hp, hv, hex]
  · intro hex
    cases hdi : o.discoverIncludes with
    | error e =>
      refine ⟨staticStage w, Except.error BuildError.discoverIncludesFailed, ?_⟩
      simp [buildCmd, hy, hp, hv, hex, hdi]
    | ok layouts =>
      cases hdv : o.discoverViews layouts with
      | error e =>
        refine ⟨staticStage w, Except.error BuildError.discoverViewsFailed, ?_⟩
        simp [buildCmd, hy, hp, hv, hex, hdi, hdv]
      | ok vs =>
        refine ⟨staticStage w ++ (runViews o.queryRows o.renderOk vs).1,
          (runViews o.queryRows o.renderOk vs).2, ?_⟩
        simp [buildCmd, hy, hp, hv, hex, hdi, hdv]

theorem c7_site_dir_fresh_witness :
    buildCmd ⟨some [], true, none⟩ sampleOracles = ([], Except.error BuildError.siteDirExists) :=
  (c7_site_dir_fresh ⟨some [], true, none⟩ sampleOracles [] ⟨"https://example.org/sparql"⟩
    rfl rfl rfl).1 rfl

/-- C8: every file of the static tree is copied to the site directory
under its unchanged relative path with its bytes unchanged, and an absent
static directory contributes no effects and cannot fail: the build skips
the copy and continues. -/
theorem c8_static_copy :
    (∀ (files : List (String × List Nat)) (rel : String) (bytes : List Nat),
        (rel, bytes) ∈ files → Effect.copyFile ("site/" ++ rel) bytes ∈ CopyStatic files) ∧
    (∀ w : World, w.staticFiles = none → staticStage w = []) := by
  constructor
  · intro files rel bytes hmem
    have h1 : Effect.copyFile (goReplaceFirst ("static/" ++ rel) "static/" "site/") bytes ∈
        CopyStatic files := by
      simp only [CopyStatic, List.mem_map]
      exact ⟨(rel, bytes), hmem, rfl⟩
    rwa [goReplaceFirst_static] at h1
  · intro w h
    simp [staticStage, h]

theorem c8_static_copy_witness :
    Effect.copyFile ("site/" ++ "css/a.css") [1, 2, 3] ∈ CopyStatic [("css/a.css", [1, 2, 3])] ∧
    staticStage ⟨some [], false, none⟩ = [] :=
  ⟨c8_static_copy.1 [("css/a.css", [1, 2, 3])] "css/a.css" [1, 2, 3] (by decide),
   c8_static_copy.2 ⟨some [], false, none⟩ rfl⟩

/-- C9: the pipeline is sequential and fail-fast: a failing view ends the
whole run with exactly its own trace (no later view is queried), a
successful view contributes its trace before the remaining views run, and
within a view a failing page ends the view with no later page rendered. -/
theorem c9_sequential_abort :
    (∀ (q : View → Except String (List Row)) (rend : String → Context → Except String Unit)
        (v : View) (vs : List View) (t : List Effect) (e : BuildError),
        runView q rend v = (t, Except.error e) →
        runViews q rend (v :: vs) = (t, Except.error e)) ∧
    (∀ (q : View → Except String (List Row)) (rend : String → Context → Except String Unit)
        (v : View) (vs : List View) (t : List Effect),
        runView q rend v = (t, Except.ok ()) →
        runViews q rend (v :: vs) = (t ++ (runViews q rend vs).1, (runViews q rend vs).2)) ∧
    (∀ (rend : String → Context → Except String Unit) (j : RenderJob) (js : List RenderJob)
        (e : String),
        rend j.outputPath j.context = Except.error e →
        runJobs rend (j :: js) =
          ([Effect.render j.outputPath j.context],
           Except.error (BuildError.renderFailed j.outputPath))) := by
  refine ⟨?_, ?_, ?_⟩
  · intro q rend v vs t e h
    simp [runViews, h]
  · intro q rend v vs t h
    simp [runViews, h]
  · intro rend j js e h
    simp [runJobs, h]

theorem c9_sequential_abort_witness :
    runViews (fun _ => Except.error "boom") (fun _ _ => Except.ok ()) [vPosts, vIndex] =
      ([Effect.query vPosts.Sparql], Except.error BuildError.queryFailed) :=
  c9_sequential_abort.1 (fun _ => Except.error "boom") (fun _ _ => Except.ok ())
    vPosts [vIndex] [Effect.query vPosts.Sparql] BuildError.queryFailed rfl

/-- planView only ever emits paths that extend the site directory. -/
theorem planView_path_shape (v : View) (rows : List Row) (j : RenderJob)
    (h : j ∈ planView v rows) : ∃ s, j.outputPath = "site/" ++ s := by
  cases hv : v.MultipageVariableHook with
  | some hook =>
    simp only [planView, hv, List.mem_map] at h
    obtain ⟨row, _, rfl⟩ := h
    exact ⟨_, rfl⟩
  | none =>
    simp only [planView, hv, List.mem_singleton] at h
    subst h
    exact ⟨_, rfl⟩

/-- Every render effect of runJobs carries the path of one of its jobs. -/
theorem runJobs_render_path (rend : String → Context → Except String Unit)
    (js : List RenderJob) (p : String) (c : Context)
    (h : Effect.render p c ∈ (runJobs rend js).1) : ∃ j ∈ js, p = j.outputPath := by
  induction js with
  | nil => simp [runJobs] at h
  | cons j js ih =>
    rw [runJobs] at h
    cases hr : rend j.outputPath j.context with
    | error e =>
      rw [hr] at h
      simp only [List.mem_singleton, Effect.render.injEq] at h
      exact ⟨j, List.mem_cons_self _ _, h.1⟩
    | ok u =>
      rw [hr] at h
      simp only [List.mem_cons, Effect.render.injEq] at h
      rcases h with h | h
      · exact ⟨j, List.mem_cons_self _ _, h.1⟩
      · obtain ⟨j2, hj2, hp⟩ := ih h
        exact ⟨j2, List.mem_cons_of_mem _ hj2, hp⟩

/-- Every render effect of one view lies under the site directory. -/
theorem runView_render_path (q : View → Except String (List Row))
    (rend : String → Context → Except String Unit) (v : View) (p : String) (c : Context)
    (h : Effect.render p c ∈ (runView q rend v).1) : ∃ s, p = "site/" ++ s := by
  rw [runView] at h
  cases hq : q v with
  | error e =>
    rw [hq] at h
    simp at h
  | ok rows =>
    rw [hq] at h
    simp only [List.mem_cons] at h
    rcases h with h | h
    · exact absurd h (by simp)
    · obtain ⟨j, hj, hp⟩ := runJobs_render_path rend (planView v rows) p c h
      obtain ⟨s, hs⟩ := planView_path_shape v rows j hj
      exact ⟨s, by rw [hp, hs]⟩

/-- C10: every output path handed to RenderPage across the whole view loop
extends the fixed site directory: no page is written outside it. -/
theorem c10_under_site_dir (q : View → Except String (List Row))
    (rend : String → Context → Except String Unit) (vs : List View) (p : String) (c : Context)
    (h : Effect.render p c ∈ (runViews q rend vs).1) : ∃ s, p = "site/" ++ s := by
  induction vs with
  | nil => simp [runViews] at h
  | cons v vs ih =>
    rw [runViews] at h
    rcases hrv : runView q rend v with ⟨t, res⟩
    rw [hrv] at h
    cases res with
    | error e =>
      have ht : Effect.render p c ∈ (runView q rend v).1 := by
        rw [hrv]
        exact h
      exact runView_render_path q rend v p c ht
    | ok u =>
      simp only [List.mem_append] at h
      rcases h with h | h
      · have ht : Effect.render p c ∈ (runView q rend v).1 := by
          rw [hrv]
          exact h
        exact runView_render_path q rend v p c ht
      · exact ih h

theorem c10_under_site_dir_witness :
    ∃ s, "site/index.html" = "site/" ++ s :=
  c10_under_site_dir (fun _ => Except.ok [rowA1, rowA2]) (fun _ _ => Except.ok ())
    [vIndex] "site/index.html" (Context.all [rowA1, rowA2]) (by decide)

/-! Helper lemmas towards C5: the net/url model accepts every simple
well-formed absolute URL. -/

theorem goodChar_of_alpha (c : Char) (h : isAlphaChar c = true) :
    33 ≤ c.toNat ∧ c.toNat ≤ 126 := by
  simp only [isAlphaChar, Bool.or_eq_true, Bool.and_eq_true, decide_eq_true_eq] at h
  omega

theorem goodChar_of_hostChar (c : Char) (h : isSimpleHostChar c = true) :
    33 ≤ c.toNat ∧ c.toNat ≤ 126 := by
  simp only [isSimpleHostChar, Bool.or_eq_true, beq_iff_eq] at h
  rcases h with ((h | h) | h) | h
  · exact goodChar_of_alpha c h
  · simp only [isDigitChar, Bool.and_eq_true, decide_eq_true_eq] at h
    omega
  · subst h; decide
  · subst h; decide

theorem goodChar_of_pathChar (c : Char) (h : isSimplePathChar c = true) :
    33 ≤ c.toNat ∧ c.toNat ≤ 126 := by
  simp only [isSimplePathChar, Bool.or_eq_true, beq_iff_eq] at h
  rcases h with ((h | h) | h) | h
  · exact goodChar_of_hostChar c h
  · subst h; decide
  · subst h; decide
  · subst h; decide

theorem hostChar_ne (c : Char) (h : isSimpleHostChar c = true) :
    c ≠ '?' ∧ c ≠ ':' ∧ c ≠ '@' ∧ c ≠ '[' ∧ c ≠ '%' ∧ c ≠ '/' := by
  refine ⟨?_, ?_, ?_, ?_, ?_, ?_⟩ <;>
    (intro heq; subst heq; exact absurd h (by decide))

theorem pathChar_ne (c : Char) (h : isSimplePathChar c = true) :
    c ≠ '?' ∧ c ≠ '%' := by
  refine ⟨?_, ?_⟩ <;> (intro heq; subst heq; exact absurd h (by decide))

theorem shouldEscapeHost_simple (c : Char) (h : isSimpleHostChar c = true) :
    shouldEscapeHost c = false := by
  simp only [isSimpleHostChar, Bool.or_eq_true, beq_iff_eq] at h
  rcases h with ((h | h) | h) | h
  · simp [shouldEscapeHost, h]
  · simp [shouldEscapeHost, h]
  · subst h; decide
  · subst h; decide

theorem render_chars_good (u : SimpleAbsUrl)
    (hsa : ∀ c ∈ u.scheme, isAlphaChar c = true)
    (hha : ∀ c ∈ u.host, isSimpleHostChar c = true)
    (hpa : ∀ c ∈ u.path, isSimplePathChar c = true) :
    ∀ c ∈ u.render, 33 ≤ c.toNat ∧ c.toNat ≤ 126 := by
  intro c hc
  simp only [SimpleAbsUrl.render, List.mem_append, List.mem_cons] at hc
  rcases hc with hc | hc | hc | hc | hc | hc
  · exact goodChar_of_alpha c (hsa c hc)
  · subst hc; decide
  · subst hc; decide
  · subst hc; decide
  · exact goodChar_of_hostChar c (hha c hc)
  · exact goodChar_of_pathChar c (hpa c hc)

theorem containsCTLByte_render (u : SimpleAbsUrl)
    (hgood : ∀ c ∈ u.render, 33 ≤ c.toNat ∧ c.toNat ≤ 126) :
    containsCTLByte u.render = false := by
  rw [Bool.eq_false_iff]
  intro hcontr
  rw [containsCTLByte, List.any_eq_true] at hcontr
  obtain ⟨c, hc, hp⟩ := hcontr
  have hg := hgood c hc
  simp only [Bool.or_eq_true, decide_eq_true_eq] at hp
  omega

theorem schemeScanAux_all_alpha (rest : List Char) (xs : List Char) :
    ∀ (i : Nat), (∀ c ∈ xs, isAlphaChar c = true) → 0 < i + xs.length →
    schemeScanAux (xs ++ ':' :: rest) i = SchemeScan.found (i + xs.length) := by
  induction xs with
  | nil =>
    intro i hx hi
    have h1 : isAlphaChar ':' = false := by decide
    have h2 : isSchemeExtraChar ':' = false := by decide
    have h3 : i ≠ 0 := by simp only [List.length_nil] at hi; omega
    simp [schemeScanAux, h1, h2, h3]
  | cons x xs ih =>
    intro i hx hi
    have hx1 : isAlphaChar x = true := hx x (by simp)
    rw [List.cons_append, schemeScanAux]
    rw [hx1]
    simp only [if_true]
    rw [ih (i + 1) (fun c hc => hx c (List.mem_cons_of_mem _ hc)) (by omega)]
    simp only [List.length_cons]
    congr 1
    omega

theorem getScheme_render (u : SimpleAbsUrl) (hs : u.scheme ≠ [])
    (hsa : ∀ c ∈ u.scheme, isAlphaChar c = true) :
    getScheme u.render = Except.ok (u.scheme, '/' :: '/' :: (u.host ++ u.path)) := by
  have hlen : 0 < 0 + u.scheme.length := by
    have := List.length_pos.mpr hs
    omega
  have h1 : schemeScanAux (u.scheme ++ ':' :: ('/' :: '/' :: (u.host ++ u.path))) 0 =
      SchemeScan.found (0 + u.scheme.length) :=
    schemeScanAux_all_alpha _ _ 0 hsa hlen
  have hrw : u.render = u.scheme ++ ':' :: ('/' :: '/' :: (u.host ++ u.path)) := rfl
  rw [getScheme, hrw, h1]
  simp only [Nat.zero_add]
  have htake : (u.scheme ++ ':' :: ('/' :: '/' :: (u.host ++ u.path))).take u.scheme.length =
      u.scheme := List.take_left _ _
  have hdrop : (u.scheme ++ ':' :: ('/' :: '/' :: (u.host ++ u.path))).drop (u.scheme.length + 1) =
      '/' :: '/' :: (u.host ++ u.path) := by
    have h : u.scheme ++ ':' :: ('/' :: '/' :: (u.host ++ u.path)) =
        (u.scheme ++ [':']) ++ ('/' :: '/' :: (u.host ++ u.path)) := by simp
    have h2 : u.scheme.length + 1 = (u.scheme ++ [':']).length := by simp
    rw [h, h2, List.drop_left]
  rw [htake, hdrop]

theorem listIndexOf_not_mem (c : Char) (s : List Char) (h : c ∉ s) :
    listIndexOf c s = none := by
  induction s with
  | nil => rfl
  | cons d ds ih =>
    have hd : (d == c) = false := by
      simp only [beq_eq_false_iff_ne]
      intro heq
      exact h (by simp [heq])
    simp [listIndexOf, hd, ih (fun hm => h (List.mem_cons_of_mem _ hm))]

theorem lastIndexOf_not_mem (c : Char) (s : List Char) (h : c ∉ s) :
    lastIndexOf c s = none := by
  rw [lastIndexOf, listIndexOf_not_mem c _ (by simpa using h)]

theorem listIndexOf_append_self (c : Char) (post : List Char) (pre : List Char) (h : c ∉ pre) :
    listIndexOf c (pre ++ c :: post) = some pre.length := by
  induction pre with
  | nil => simp [listIndexOf]
  | cons d ds ih =>
    have hd : (d == c) = false := by
      simp only [beq_eq_false_iff_ne]
      intro heq
      exact h (by simp [heq])
    simp [listIndexOf, hd, ih (fun hm => h (List.mem_cons_of_mem _ hm))]

theorem endsWith_q_false (s : List Char) (h : '?' ∉ s) : endsWith s ['?'] = false := by
  show startsWith s.reverse ['?'].reverse = false
  cases hs : s.reverse with
  | nil => rfl
  | cons c cs =>
    have hc : c ∈ s := by
      have h1 : c ∈ s.reverse := by rw [hs]; simp
      simpa using h1
    have hne : (c == '?') = false := by
      simp only [beq_eq_false_iff_ne]
      intro heq
      subst heq
      exact h hc
    simp [startsWith, hne]

theorem unescape_host_ok (s : List Char) (h : ∀ c ∈ s, isSimpleHostChar c = true) :
    unescape s UMode.host = Except.ok s := by
  induction s with
  | nil => rfl
  | cons c cs ih =>
    have hc := h c (by simp)
    have hne : (c == '%') = false := by
      simp only [beq_eq_false_iff_ne]
      exact (hostChar_ne c hc).2.2.2.2.1
    have hesc : shouldEscapeHost c = false := shouldEscapeHost_simple c hc
    rw [unescape.eq_def]
    simp only [hne, Bool.false_eq_true, if_false, hesc, Bool.and_false]
    rw [ih (fun d hd => h d (List.mem_cons_of_mem _ hd))]

theorem unescape_path_ok (s : List Char) (h : ∀ c ∈ s, isSimplePathChar c = true) :
    unescape s UMode.path = Except.ok s := by
  induction s with
  | nil => rfl
  | cons c cs ih =>
    have hc := h c (by simp)
    have hne : (c == '%') = false := by
      simp only [beq_eq_false_iff_ne]
      exact (pathChar_ne c hc).2
    rw [unescape.eq_def]
    simp only [hne, Bool.false_eq_true, if_false]
    have hmode : (UMode.path == UMode.host) = false := rfl
    simp only [hmode, Bool.false_and]
    rw [ih (fun d hd => h d (List.mem_cons_of_mem _ hd))]
    rfl

theorem parseHost_simple (host : List Char) (hne : host ≠ [])
    (h : ∀ c ∈ host, isSimpleHostChar c = true) : parseHost host = Except.ok host := by
  have hbr : startsWith host ['['] = false := by
    cases host with
    | nil => exact absurd rfl hne
    | cons c cs =>
      have hc := h c (by simp)
      have hnotbr : (c == '[') = false := by
        simp only [beq_eq_false_iff_ne]
        exact (hostChar_ne c hc).2.2.2.1
      simp [startsWith, hnotbr]
  have hcolon : lastIndexOf ':' host = none :=
    lastIndexOf_not_mem ':' host (fun hm => (hostChar_ne ':' (h ':' hm)).2.1 rfl)
  simp [parseHost, hbr, hcolon, unescape_host_ok host h]

theorem parseAuthority_simple (host : List Char) (hne : host ≠ [])
    (h : ∀ c ∈ host, isSimpleHostChar c = true) : parseAuthority host = Except.ok host := by
  have hat : lastIndexOf '@' host = none :=
    lastIndexOf_not_mem '@' host (fun hm => (hostChar_ne '@' (h '@' hm)).2.2.1 rfl)
  simp [parseAuthority, hat, parseHost_simple host hne h]

/-- urlParse accepts every simple well-formed absolute URL, returning its
lowered scheme, its host and its path. -/
theorem urlParse_render_ok (u : SimpleAbsUrl) (h : u.WellFormed) :
    urlParse u.render true =
      Except.ok { Scheme := u.scheme.map goToLower, Host := u.host, Path := u.path } := by
  obtain ⟨hs, hsa, hh, hha, hpa, hp⟩ := h
  have hgood := render_chars_good u hsa hha hpa
  have hctl : containsCTLByte u.render = false := containsCTLByte_render u hgood
  have hempty : u.render.isEmpty = false := by
    cases hsc : u.scheme with
    | nil => exact absurd hsc hs
    | cons c cs =>
      have hr : u.render = c :: (cs ++ ':' :: '/' :: '/' :: (u.host ++ u.path)) := by
        rw [SimpleAbsUrl.render, hsc]
        rfl
      rw [hr]
      rfl
  have hstar : ¬(u.render = ['*']) := by
    intro heq
    have hlen := congrArg List.length heq
    simp [SimpleAbsUrl.render] at hlen
    omega
  have hgs := getScheme_render u hs hsa
  have hq_not : '?' ∉ ('/' :: '/' :: (u.host ++ u.path)) := by
    intro hm
    simp only [List.mem_cons, List.mem_append] at hm
    rcases hm with hm | hm | hm | hm
    · exact (by decide : ¬(('?' : Char) = '/')) hm
    · exact (by decide : ¬(('?' : Char) = '/')) hm
    · exact (hostChar_ne '?' (hha '?' hm)).1 rfl
    · exact (pathChar_ne '?' (hpa '?' hm)).1 rfl
  have hq_ends : endsWith ('/' :: '/' :: (u.host ++ u.path)) ['?'] = false :=
    endsWith_q_false _ hq_not
  have hq_idx : listIndexOf '?' ('/' :: '/' :: (u.host ++ u.path)) = none :=
    listIndexOf_not_mem _ _ hq_not
  have hslash_host : '/' ∉ u.host := fun hm => (hostChar_ne '/' (hha '/' hm)).2.2.2.2.2 rfl
  have hauth := parseAuthority_simple u.host hh hha
  have hsw1 : startsWith ('/' :: '/' :: (u.host ++ u.path)) ['/'] = true := by
    simp [startsWith]
  have hsw2 : startsWith ('/' :: '/' :: (u.host ++ u.path)) ['/', '/'] = true := by
    simp [startsWith]
  have hmapne : (u.scheme.map goToLower).isEmpty = false := by
    cases hsc : u.scheme with
    | nil => exact absurd hsc hs
    | cons c cs => simp
  unfold urlParse
  simp only [hctl, Bool.false_eq_true, if_false, hempty, Bool.false_and, hstar, hgs,
    hq_ends, hq_idx, hsw1, hsw2, hmapne, Bool.not_false, Bool.not_true, Bool.true_or,
    Bool.true_and, Bool.and_true, List.drop_succ_cons, List.drop_zero]
  rw [if_pos trivial]
  rcases hp with hpath | hpath
  · simp only [hpath, List.append_nil]
    rw [listIndexOf_not_mem '/' u.host hslash_host]
    simp only [hauth]
    rfl
  · obtain ⟨p2, hp2⟩ : ∃ p2, u.path = '/' :: p2 := by
      cases hpc : u.path with
      | nil => rw [hpc] at hpath; simp at hpath
      | cons c cs =>
        rw [hpc] at hpath
        simp [List.take] at hpath
        subst hpath
        exact ⟨cs, rfl⟩
    have hidx : listIndexOf '/' (u.host ++ u.path) = some u.host.length := by
      rw [hp2]
      exact listIndexOf_append_self '/' p2 u.host hslash_host
    rw [hidx]
    simp only [List.take_left, List.drop_left, hauth, unescape_path_ok u.path hpa]

/-- C5: the config validator IsValid accepts every simple well-formed
absolute URL and rejects the empty string and the malformed example
input. -/
theorem c5_isValid_urls :
    (∀ u : SimpleAbsUrl, u.WellFormed → siteConfig.IsValid ⟨⟨u.render⟩⟩ = Except.ok ()) ∧
    siteConfig.IsValid ⟨""⟩ = Except.error "empty url" ∧
    siteConfig.IsValid ⟨"not a url"⟩ = Except.error "invalid URI for request" := by
  refine ⟨?_, rfl, rfl⟩
  intro u hu
  unfold siteConfig.IsValid ParseRequestURI
  rw [show (siteConfig.mk (String.mk u.render)).Endpoint.data = u.render from rfl]
  rw [urlParse_render_ok u hu]

theorem c5_isValid_urls_witness :
    SimpleAbsUrl.WellFormed sampleUrl ∧
    siteConfig.IsValid ⟨"https://example.org/sparql"⟩ = Except.ok () := by
  constructor
  · decide
  · have h := c5_isValid_urls.1 sampleUrl (by decide)
    have he : String.mk sampleUrl.render = "https://example.org/sparql" := by decide
    rw [← he]
    exact h

end Snowman
